import Mathlib

/-!
Shallow embedding of the ring setup and ownership subsystem of the
vargasync repository (src/mmap.rs, src/syscalls.rs, src/io_uring.rs,
src/lib.rs), together with proofs settling the specification claims.

Machine integers are modeled as Nat with explicit reduction modulo
2 ^ 32 (u32) or 2 ^ 64 (usize and pointers) at every point where the
source performs fixed-width arithmetic.  The mmap and io_uring_setup
syscalls are external collaborators and enter the model as oracle
parameters.  Every mapping and unmapping the code performs, including
the unmappings produced by Drop glue on early-return paths (which in
Rust run in reverse declaration order), is recorded in an event trace,
as is the setup syscall itself.
-/

def U32 : Nat := 4294967296

def U64 : Nat := 18446744073709551616

/-- Size in bytes of linux_raw_sys io_uring_cqe (u64 user_data, i32 res, u32 flags). -/
def sizeof_io_uring_cqe : Nat := 16

/-- Size in bytes of linux_raw_sys io_uring_sqe. -/
def sizeof_io_uring_sqe : Nat := 64

def sizeof_u32 : Nat := 4

/- Setup flags (caller input), bit values from the kernel ABI, as imported
   by src/io_uring.rs and src/lib.rs from linux_raw_sys. -/

def IORING_SETUP_IOPOLL : Nat := 1

def IORING_SETUP_SQPOLL : Nat := 2

def IORING_SETUP_SQ_AFF : Nat := 4

def IORING_SETUP_CQSIZE : Nat := 8

def IORING_SETUP_CLAMP : Nat := 16

def IORING_SETUP_ATTACH_WQ : Nat := 32

def IORING_SETUP_R_DISABLED : Nat := 64

def IORING_SETUP_SUBMIT_ALL : Nat := 128

def IORING_SETUP_COOP_TASKRUN : Nat := 256

def IORING_SETUP_TASKRUN_FLAG : Nat := 512

def IORING_SETUP_SQE128 : Nat := 1024

def IORING_SETUP_CQE32 : Nat := 2048

def IORING_SETUP_SINGLE_ISSUER : Nat := 4096

def IORING_SETUP_DEFER_TASKRUN : Nat := 8192

def IORING_SETUP_NO_MMAP : Nat := 16384

def IORING_SETUP_REGISTERED_FD_ONLY : Nat := 32768

/-- Union of the sixteen flag bits of the bitflags set IoUringSetupFlags;
bitflags from_bits succeeds exactly when the word is contained in this mask. -/
def SETUP_FLAGS_MASK : Nat := 65535

/- Feature flags (kernel output), bits 0 through 13. -/

def IORING_FEAT_SINGLE_MMAP : Nat := 1

def IORING_FEAT_NODROP : Nat := 2

def IORING_FEAT_SUBMIT_STABLE : Nat := 4

def IORING_FEAT_RW_CUR_POS : Nat := 8

def IORING_FEAT_CUR_PERSONALITY : Nat := 16

def IORING_FEAT_FAST_POLL : Nat := 32

def IORING_FEAT_POLL_32BITS : Nat := 64

def IORING_FEAT_SQPOLL_NONFIXED : Nat := 128

def IORING_FEAT_EXT_ARG : Nat := 256

def IORING_FEAT_NATIVE_WORKERS : Nat := 512

def IORING_FEAT_RSRC_TAGS : Nat := 1024

def IORING_FEAT_CQE_SKIP : Nat := 2048

def IORING_FEAT_LINKED_FILE : Nat := 4096

def IORING_FEAT_REG_REG_RING : Nat := 8192

/-- Union of the fourteen feature bits of the bitflags set IoUringFeatures. -/
def FEATURES_MASK : Nat := 16383

/- Magic mmap offsets identifying the three ring regions. -/

def IORING_OFF_SQ_RING : Nat := 0

def IORING_OFF_CQ_RING : Nat := 134217728

def IORING_OFF_SQES : Nat := 268435456

/-- Model of bitflags contains: self.bits AND other.bits equals other.bits. -/
def contains (flags bit : Nat) : Bool := (flags &&& bit) == bit

/-- io_sqring_offsets, the kernel-reported submission ring offset table
(field for field as in linux_raw_sys and src/io_uring.rs IoSqRingOffsets). -/
structure io_sqring_offsets where
  head : Nat
  tail : Nat
  ring_mask : Nat
  ring_entries : Nat
  flags : Nat
  dropped : Nat
  array : Nat
  resv1 : Nat
  user_addr : Nat
deriving DecidableEq

/-- io_cqring_offsets, the kernel-reported completion ring offset table. -/
structure io_cqring_offsets where
  head : Nat
  tail : Nat
  ring_mask : Nat
  ring_entries : Nat
  overflow : Nat
  cqes : Nat
  flags : Nat
  resv1 : Nat
  user_addr : Nat
deriving DecidableEq

/-- io_uring_params, the bit-exact parameter structure exchanged with the
kernel.  The crate wrapper IoUringParams converts into this structure field
for field (an identity on values), so one model structure serves both. -/
structure io_uring_params where
  sq_entries : Nat
  cq_entries : Nat
  flags : Nat
  sq_thread_cpu : Nat
  sq_thread_idle : Nat
  features : Nat
  wq_fd : Nat
  resv : List Nat
  sq_off : io_sqring_offsets
  cq_off : io_cqring_offsets
deriving DecidableEq

/-- Error taxonomy of the layer.  The source uses anyhow errors; the
constructors here stand for, in order: the from_bits failure in
initialize and in the lib.rs feature parse, the IoUringError
InvalidArgument configuration error, an mmap failure (tagged with the
magic offset of the failed mapping), and the add_offset failures inside
setup_cq_ring and setup_send_ring. -/
inductive InitError where
  | invalid_flag_bits
  | invalid_argument
  | mmap_failed (offset : Nat)
  | offset_error
deriving DecidableEq

/-- Events observable at the OS boundary: the setup syscall, an mmap call
that succeeded (fd, magic offset, length, returned base), and a munmap. -/
inductive Event where
  | syscall_setup (entries : Nat)
  | map (fd : Int) (offset : Nat) (len : Nat) (base : Nat)
  | unmap (base : Nat) (len : Nat)
deriving DecidableEq

/-- MMap from src/mmap.rs: an owned mapping with base address and length. -/
structure MMap where
  addr : Nat
  len : Nat
deriving DecidableEq

/-- MMap add_offset from src/mmap.rs lines 56-58: unsafe pointer addition
followed by NonNull new, which returns None exactly when the resulting
address is null.  Pointer arithmetic wraps modulo 2 ^ 64.  Note that the
mapping length is not consulted. -/
def MMap.add_offset (m : MMap) (offset : Nat) : Option Nat :=
  if (m.addr + offset) % U64 = 0 then none else some ((m.addr + offset) % U64)

/-- IoUringQueueOwnership from src/io_uring.rs lines 218-221: the completion
ring either owns its header mapping or refers to the submission ring one. -/
inductive IoUringQueueOwnership where
  | Owns (m : MMap)
  | Refers (m : MMap)
deriving DecidableEq

/-- The mapping an ownership value dereferences to.  The source match in
setup_cq_ring has two textually identical arms, one for each constructor,
both resolving against the underlying mapping; this helper is that
dereference. -/
def IoUringQueueOwnership.mmapOf : IoUringQueueOwnership → MMap
  | .Owns m => m
  | .Refers m => m

/-- Drop glue of IoUringQueueOwnership: dropping Owns unmaps the mapping,
dropping Refers releases nothing. -/
def dropOwnership : IoUringQueueOwnership → List Event
  | .Owns m => [.unmap m.addr m.len]
  | .Refers _ => []

/-- IoUringCompleteQueue from src/io_uring.rs lines 198-206 (resolved
pointers are addresses). -/
structure IoUringCompleteQueue where
  head : Nat
  tail : Nat
  mask : Nat
  entries : Nat
  flags : Nat
  ring : IoUringQueueOwnership
  cqes : Nat
deriving DecidableEq

/-- IoUringSendQueue from src/io_uring.rs lines 208-216. -/
structure IoUringSendQueue where
  head : Nat
  tail : Nat
  mask : Nat
  entries : Nat
  flags : Nat
  ring : MMap
  sqes : MMap
deriving DecidableEq

/-- IoUring from src/io_uring.rs lines 313-318. -/
structure IoUring where
  send_queue : IoUringSendQueue
  complete_queue : IoUringCompleteQueue
  flags : Nat
  ring_file_descriptor : Int
deriving DecidableEq

/-- setup_cq_ring from src/io_uring.rs lines 223-279: resolve the six
completion offsets against the (owned or referred) header mapping; any
add_offset failure aborts with an error.  The two source match arms are
identical up to the dereference, collapsed here through mmapOf. -/
def setup_cq_ring (map : IoUringQueueOwnership) (params : io_uring_params) :
    Except InitError IoUringCompleteQueue :=
  match map.mmapOf.add_offset params.cq_off.head,
        map.mmapOf.add_offset params.cq_off.tail,
        map.mmapOf.add_offset params.cq_off.ring_mask,
        map.mmapOf.add_offset params.cq_off.ring_entries,
        map.mmapOf.add_offset params.cq_off.flags,
        map.mmapOf.add_offset params.cq_off.cqes with
  | some head, some tail, some mask, some entries, some flags, some cqes =>
      .ok { head := head, tail := tail, mask := mask, entries := entries,
            flags := flags, ring := map, cqes := cqes }
  | _, _, _, _, _, _ => .error .offset_error

/-- setup_send_ring from src/io_uring.rs lines 281-311: resolve the five
submission header offsets against the submission header mapping. -/
def setup_send_ring (map : MMap) (params : io_uring_params) (sqes : MMap) :
    Except InitError IoUringSendQueue :=
  match map.add_offset params.sq_off.head,
        map.add_offset params.sq_off.tail,
        map.add_offset params.sq_off.ring_mask,
        map.add_offset params.sq_off.ring_entries,
        map.add_offset params.sq_off.flags with
  | some head, some tail, some mask, some entries, some flags =>
      .ok { head := head, tail := tail, mask := mask, entries := entries,
            flags := flags, ring := map, sqes := sqes }
  | _, _, _, _, _ => .error .offset_error

/-- Submission header region size before the single-mmap adjustment,
src/io_uring.rs lines 349-350 (usize arithmetic). -/
def sq_ring_size (p : io_uring_params) : Nat :=
  (p.sq_off.array + p.sq_entries * sizeof_u32) % U64

/-- Completion header region size before the single-mmap adjustment,
src/io_uring.rs lines 351-352.  Note the io_uring.rs variant uses the
fixed cqe size with no Cqe32 handling. -/
def cq_ring_size (p : io_uring_params) : Nat :=
  (p.cq_off.cqes + p.cq_entries * sizeof_io_uring_cqe) % U64

/-- Submission header mapping size after the single-mmap adjustment,
src/io_uring.rs lines 354-359. -/
def send_ring_size (p : io_uring_params) : Nat :=
  if 0 < p.features &&& IORING_FEAT_SINGLE_MMAP then
    (if cq_ring_size p > sq_ring_size p then cq_ring_size p else sq_ring_size p)
  else sq_ring_size p

/-- Completion header mapping size after the single-mmap adjustment. -/
def complete_ring_size (p : io_uring_params) : Nat :=
  if 0 < p.features &&& IORING_FEAT_SINGLE_MMAP then send_ring_size p
  else cq_ring_size p

/-- Submission entry array size, src/io_uring.rs line 377 (usize
arithmetic; this variant has no Sqe128 handling). -/
def sqes_size (p : io_uring_params) : Nat :=
  (p.sq_entries * sizeof_io_uring_sqe) % U64

/-- Tail of io_uring_queue_mmap (src/io_uring.rs lines 377-392) after the
header mappings are established: map the submission entry array, then run
both offset resolutions and assemble the handle.  Each early return path
appends the unmap events of the Drop glue, in the order Rust produces
them: a callee drops its owned parameters (in reverse declaration order)
during its own error return, then the caller drops its live locals in
reverse declaration order. -/
def queue_mmap_rest (mm : Int → Nat → Nat → Option Nat) (fd : Int)
    (p : io_uring_params) (send_ring : MMap)
    (complete_ring : IoUringQueueOwnership) (evs : List Event) :
    Except InitError IoUring × List Event :=
  match mm fd IORING_OFF_SQES (sqes_size p) with
  | none =>
      (.error (.mmap_failed IORING_OFF_SQES),
       evs ++ dropOwnership complete_ring ++ [.unmap send_ring.addr send_ring.len])
  | some qb =>
      match setup_cq_ring complete_ring p with
      | .error e =>
          (.error e,
           (evs ++ [.map fd IORING_OFF_SQES (sqes_size p) qb]) ++
             dropOwnership complete_ring ++
             [.unmap qb (sqes_size p), .unmap send_ring.addr send_ring.len])
      | .ok complete_queue =>
          match setup_send_ring send_ring p ⟨qb, sqes_size p⟩ with
          | .error e =>
              (.error e,
               (evs ++ [.map fd IORING_OFF_SQES (sqes_size p) qb]) ++
                 [.unmap qb (sqes_size p), .unmap send_ring.addr send_ring.len] ++
                 dropOwnership complete_queue.ring)
          | .ok send_queue =>
              (.ok { send_queue := send_queue, complete_queue := complete_queue,
                     flags := p.flags, ring_file_descriptor := fd },
               evs ++ [.map fd IORING_OFF_SQES (sqes_size p) qb])

/-- io_uring_queue_mmap from src/io_uring.rs lines 345-392.  The mmap
syscall is the oracle mm (fd, magic offset, length to base address, None
on MAP_FAILED); successful mmap calls are recorded as map events. -/
def io_uring_queue_mmap (mm : Int → Nat → Nat → Option Nat) (fd : Int)
    (p : io_uring_params) : Except InitError IoUring × List Event :=
  match mm fd IORING_OFF_SQ_RING (send_ring_size p) with
  | none => (.error (.mmap_failed IORING_OFF_SQ_RING), [])
  | some sb =>
      if 0 < p.features &&& IORING_FEAT_SINGLE_MMAP then
        queue_mmap_rest mm fd p ⟨sb, send_ring_size p⟩
          (.Refers ⟨sb, send_ring_size p⟩)
          [.map fd IORING_OFF_SQ_RING (send_ring_size p) sb]
      else
        match mm fd IORING_OFF_CQ_RING (complete_ring_size p) with
        | none =>
            (.error (.mmap_failed IORING_OFF_CQ_RING),
             [.map fd IORING_OFF_SQ_RING (send_ring_size p) sb,
              .unmap sb (send_ring_size p)])
        | some cb =>
            queue_mmap_rest mm fd p ⟨sb, send_ring_size p⟩
              (.Owns ⟨cb, complete_ring_size p⟩)
              [.map fd IORING_OFF_SQ_RING (send_ring_size p) sb,
               .map fd IORING_OFF_CQ_RING (complete_ring_size p) cb]

/-- Model of bitflags from_bits for the setup flag set: succeeds exactly
when every bit of the word is a defined flag bit. -/
def from_bits_setup (flags : Nat) : Except InitError Nat :=
  if flags &&& SETUP_FLAGS_MASK = flags then .ok flags
  else .error .invalid_flag_bits

/-- IoUring initialize from src/io_uring.rs lines 320-337 (named init here).
The setup oracle models the io_uring_setup trampoline of src/syscalls.rs
lines 69-77: it returns the raw syscall result and the kernel-written
parameter structure.  Exactly as in the source, the raw result is wrapped
into the ring file descriptor unconditionally (OwnedFd from_raw_fd), with
no negative-errno check, and control proceeds to io_uring_queue_mmap. -/
def IoUring.init (setup : Nat → io_uring_params → Int × io_uring_params)
    (mm : Int → Nat → Nat → Option Nat) (entries : Nat)
    (params : io_uring_params) : Except InitError IoUring × List Event :=
  match from_bits_setup params.flags with
  | .error e => (.error e, [])
  | .ok flags =>
      if contains flags IORING_SETUP_REGISTERED_FD_ONLY &&
         !(contains flags IORING_SETUP_NO_MMAP) then
        (.error .invalid_argument, [])
      else
        match setup entries params with
        | (fd, parameters) =>
            match io_uring_queue_mmap mm fd parameters with
            | (res, tr) => (res, .syscall_setup entries :: tr)

/- The lib.rs crate-root variant of the geometry computation and mapping
   (src/lib.rs lines 236-290), which carries the Cqe32 and Sqe128 entry
   size handling. -/

/-- Completion entry size, src/lib.rs lines 242-245: the fixed cqe size,
doubled by adding it again when the Cqe32 setup flag is set. -/
def Lib.cqe_size (setup_flags : Nat) : Nat :=
  if contains setup_flags IORING_SETUP_CQE32 then
    sizeof_io_uring_cqe + sizeof_io_uring_cqe
  else sizeof_io_uring_cqe

/-- Submission header size, src/lib.rs lines 247-248 (u32 arithmetic). -/
def Lib.sq_size (p : io_uring_params) : Nat :=
  (p.sq_off.array + p.sq_entries * sizeof_u32) % U32

/-- Completion header size, src/lib.rs lines 249-250 (u32 arithmetic). -/
def Lib.cq_size (p : io_uring_params) (setup_flags : Nat) : Nat :=
  (p.cq_off.cqes + p.cq_entries * Lib.cqe_size setup_flags) % U32

/-- Model of bitflags from_bits for the feature set, src/lib.rs 252-253. -/
def Lib.from_bits_features (f : Nat) : Except InitError Nat :=
  if f &&& FEATURES_MASK = f then .ok f else .error .invalid_flag_bits

/-- Submission header mapping size after the single-mmap adjustment,
src/lib.rs lines 255-260. -/
def Lib.send_size (p : io_uring_params) (setup_flags features : Nat) : Nat :=
  if contains features IORING_FEAT_SINGLE_MMAP then
    (if Lib.cq_size p setup_flags > Lib.sq_size p then Lib.cq_size p setup_flags
     else Lib.sq_size p)
  else Lib.sq_size p

/-- Completion header mapping size after the single-mmap adjustment. -/
def Lib.complete_size (p : io_uring_params) (setup_flags features : Nat) : Nat :=
  if contains features IORING_FEAT_SINGLE_MMAP then
    Lib.send_size p setup_flags features
  else Lib.cq_size p setup_flags

/-- Submission entry size, src/lib.rs lines 278-281: the fixed sqe size
plus 64 bytes when the Sqe128 setup flag is set. -/
def Lib.sqe_size (setup_flags : Nat) : Nat :=
  if contains setup_flags IORING_SETUP_SQE128 then sizeof_io_uring_sqe + 64
  else sizeof_io_uring_sqe

/-- The ring state io_uring_queue_mmap of src/lib.rs writes into self:
the submission header mapping, the optional completion header mapping
(None under the single-mmap feature), and the entry array mapping. -/
structure LibQueues where
  send_ring : Option MMap
  complete_ring : Option MMap
  qes : MMap
deriving DecidableEq

/-- io_uring_queue_mmap from src/lib.rs lines 236-290.  Sizes are computed
in u32 (entry array in usize), features are parsed with from_bits, the
submission header is always mapped, the completion header only without the
single-mmap feature, and the entry array always as its own mapping.  The
method stores each mapping into self as soon as it is made, so an early
error return drops nothing (self keeps the mappings): no unmap events. -/
def Lib.io_uring_queue_mmap (mm : Int → Nat → Nat → Option Nat) (fd : Int)
    (setup_flags : Nat) (p : io_uring_params) :
    Except InitError LibQueues × List Event :=
  match Lib.from_bits_features p.features with
  | .error e => (.error e, [])
  | .ok features =>
      match mm fd IORING_OFF_SQ_RING (Lib.send_size p setup_flags features) with
      | none => (.error (.mmap_failed IORING_OFF_SQ_RING), [])
      | some sb =>
          if contains features IORING_FEAT_SINGLE_MMAP then
            match mm fd IORING_OFF_SQES
                ((Lib.sqe_size setup_flags * p.sq_entries) % U64) with
            | none =>
                (.error (.mmap_failed IORING_OFF_SQES),
                 [.map fd IORING_OFF_SQ_RING (Lib.send_size p setup_flags features) sb])
            | some qb =>
                (.ok { send_ring := some ⟨sb, Lib.send_size p setup_flags features⟩,
                       complete_ring := none,
                       qes := ⟨qb, (Lib.sqe_size setup_flags * p.sq_entries) % U64⟩ },
                 [.map fd IORING_OFF_SQ_RING (Lib.send_size p setup_flags features) sb,
                  .map fd IORING_OFF_SQES ((Lib.sqe_size setup_flags * p.sq_entries) % U64) qb])
          else
            match mm fd IORING_OFF_CQ_RING (Lib.complete_size p setup_flags features) with
            | none =>
                (.error (.mmap_failed IORING_OFF_CQ_RING),
                 [.map fd IORING_OFF_SQ_RING (Lib.send_size p setup_flags features) sb])
            | some cb =>
                match mm fd IORING_OFF_SQES
                    ((Lib.sqe_size setup_flags * p.sq_entries) % U64) with
                | none =>
                    (.error (.mmap_failed IORING_OFF_SQES),
                     [.map fd IORING_OFF_SQ_RING (Lib.send_size p setup_flags features) sb,
                      .map fd IORING_OFF_CQ_RING (Lib.complete_size p setup_flags features) cb])
                | some qb =>
                    (.ok { send_ring := some ⟨sb, Lib.send_size p setup_flags features⟩,
                           complete_ring := some ⟨cb, Lib.complete_size p setup_flags features⟩,
                           qes := ⟨qb, (Lib.sqe_size setup_flags * p.sq_entries) % U64⟩ },
                     [.map fd IORING_OFF_SQ_RING (Lib.send_size p setup_flags features) sb,
                      .map fd IORING_OFF_CQ_RING (Lib.complete_size p setup_flags features) cb,
                      .map fd IORING_OFF_SQES ((Lib.sqe_size setup_flags * p.sq_entries) % U64) qb])

/- Trace observers. -/

/-- The mmap calls of a trace, as (base, length) pairs in call order. -/
def mapSeq (tr : List Event) : List (Nat × Nat) :=
  tr.filterMap fun e =>
    match e with
    | .map _ _ len base => some (base, len)
    | _ => none

/-- The munmap calls of a trace, as (base, length) pairs in call order. -/
def unmapSeq (tr : List Event) : List (Nat × Nat) :=
  tr.filterMap fun e =>
    match e with
    | .unmap base len => some (base, len)
    | _ => none

/-- Whether an event is an mmap call at one of the two header magic offsets. -/
def isHeaderMap : Event → Bool
  | .map _ o _ _ => o == IORING_OFF_SQ_RING || o == IORING_OFF_CQ_RING
  | _ => false

/-- Number of header mappings created in a trace. -/
def headerMapCount (tr : List Event) : Nat := (tr.filter isHeaderMap).length

/-- Whether a result is a successfully assembled ring handle. -/
def isOkRes : Except InitError IoUring → Bool
  | .ok _ => true
  | .error _ => false

/-- The handle of a successful result. -/
def resultOk : Except InitError IoUring → Option IoUring
  | .ok r => some r
  | .error _ => none

/-- Offset tables whose fields fit in u32, as the source field types force. -/
def ParamsWF (p : io_uring_params) : Prop :=
  p.sq_off.head < U32 ∧ p.sq_off.tail < U32 ∧ p.sq_off.ring_mask < U32 ∧
  p.sq_off.ring_entries < U32 ∧ p.sq_off.flags < U32 ∧
  p.cq_off.head < U32 ∧ p.cq_off.tail < U32 ∧ p.cq_off.ring_mask < U32 ∧
  p.cq_off.ring_entries < U32 ∧ p.cq_off.flags < U32 ∧ p.cq_off.cqes < U32

/- Helper lemmas. -/

/-- For a mapping at a positive base below 2 ^ 32 and an offset fitting in
u32, pointer addition cannot wrap or hit null, so add_offset is exact. -/
theorem add_offset_eq (m : MMap) (o : Nat) (h1 : 0 < m.addr) (h2 : m.addr < U32)
    (h3 : o < U32) : m.add_offset o = some (m.addr + o) := by
  unfold MMap.add_offset
  have hlt : m.addr + o < U64 := by unfold U32 U64 at *; omega
  rw [Nat.mod_eq_of_lt hlt]
  rw [if_neg (by omega)]

/-- Under in-range bases and offsets, submission resolution succeeds and
returns base plus offset for every field. -/
theorem setup_send_ring_eq (m : MMap) (p : io_uring_params) (sqes : MMap)
    (h1 : 0 < m.addr) (h2 : m.addr < U32) (hp : ParamsWF p) :
    setup_send_ring m p sqes =
      .ok ⟨m.addr + p.sq_off.head, m.addr + p.sq_off.tail,
           m.addr + p.sq_off.ring_mask, m.addr + p.sq_off.ring_entries,
           m.addr + p.sq_off.flags, m, sqes⟩ := by
  obtain ⟨ha, hb, hc, hd, he, _⟩ := hp
  unfold setup_send_ring
  rw [add_offset_eq m _ h1 h2 ha, add_offset_eq m _ h1 h2 hb,
      add_offset_eq m _ h1 h2 hc, add_offset_eq m _ h1 h2 hd,
      add_offset_eq m _ h1 h2 he]

/-- Under in-range bases and offsets, completion resolution succeeds and
returns base plus offset for every field. -/
theorem setup_cq_ring_eq (ow : IoUringQueueOwnership) (p : io_uring_params)
    (h1 : 0 < ow.mmapOf.addr) (h2 : ow.mmapOf.addr < U32) (hp : ParamsWF p) :
    setup_cq_ring ow p =
      .ok ⟨ow.mmapOf.addr + p.cq_off.head, ow.mmapOf.addr + p.cq_off.tail,
           ow.mmapOf.addr + p.cq_off.ring_mask,
           ow.mmapOf.addr + p.cq_off.ring_entries,
           ow.mmapOf.addr + p.cq_off.flags, ow,
           ow.mmapOf.addr + p.cq_off.cqes⟩ := by
  obtain ⟨_, _, _, _, _, ha, hb, hc, hd, he, hf⟩ := hp
  unfold setup_cq_ring
  rw [add_offset_eq _ _ h1 h2 ha, add_offset_eq _ _ h1 h2 hb,
      add_offset_eq _ _ h1 h2 hc, add_offset_eq _ _ h1 h2 hd,
      add_offset_eq _ _ h1 h2 he, add_offset_eq _ _ h1 h2 hf]

/-- A successful completion resolution stores the given ownership value. -/
theorem setup_cq_ring_ring (ow : IoUringQueueOwnership) (p : io_uring_params)
    (q : IoUringCompleteQueue) (h : setup_cq_ring ow p = .ok q) :
    q.ring = ow := by
  unfold setup_cq_ring at h
  split at h
  · cases h; rfl
  · exact Except.noConfusion h

/-- A successful submission resolution stores the given header mapping and
entry array mapping. -/
theorem setup_send_ring_ring (m : MMap) (p : io_uring_params) (sqes : MMap)
    (q : IoUringSendQueue) (h : setup_send_ring m p sqes = .ok q) :
    q.ring = m ∧ q.sqes = sqes := by
  unfold setup_send_ring at h
  split at h
  · cases h; exact ⟨rfl, rfl⟩
  · exact Except.noConfusion h

/-- The source's larger-of computation written with if agrees with max. -/
theorem if_gt_else_eq_max (a b : Nat) : (if b > a then b else a) = max a b := by
  rcases Nat.lt_or_ge a b with h | h
  · rw [if_pos h]
    exact (Nat.max_eq_right (Nat.le_of_lt h)).symm
  · rw [if_neg (Nat.not_lt.mpr h)]
    exact (Nat.max_eq_left h).symm

/- Concrete inputs used by the individual claim theorems. -/

def zeroSqOff : io_sqring_offsets := ⟨0, 0, 0, 0, 0, 0, 0, 0, 0⟩

def zeroCqOff : io_cqring_offsets := ⟨0, 0, 0, 0, 0, 0, 0, 0, 0⟩

def zeroParams : io_uring_params :=
  ⟨0, 0, 0, 0, 0, 0, 0, [0, 0, 0], zeroSqOff, zeroCqOff⟩

def c1_params : io_uring_params :=
  { zeroParams with cq_entries := 4, cq_off := ⟨0, 4, 8, 12, 20, 4096, 16, 0, 0⟩ }

def c1_map : MMap := ⟨4096, 64⟩

def c2_setup : Nat → io_uring_params → Int × io_uring_params := fun _ q => (-22, q)

def c2_mm : Int → Nat → Nat → Option Nat := fun _ _ _ => some 4096

def c5_params : io_uring_params := { zeroParams with flags := 32768 }

def c5_setup : Nat → io_uring_params → Int × io_uring_params := fun _ q => (3, q)

def c5_mm : Int → Nat → Nat → Option Nat := fun _ _ _ => some 4096

def c10_params : io_uring_params := { zeroParams with flags := 65536 }

def c10_setup : Nat → io_uring_params → Int × io_uring_params := fun _ q => (3, q)

def c10_mm : Int → Nat → Nat → Option Nat := fun _ _ _ => some 4096

/-- C1: the claim says every resolved offset is checked to stay within the
mapped header region and out-of-range tables are rejected with an offset
error.  The code checks only that the sum is not null: here a table whose
cqes offset (4096) plus one entry size exceeds the mapped length (64)
resolves successfully, and the returned cqes pointer 8192 lies outside
the mapped interval from 4096 to 4160.  This exhibits the code bug. -/
theorem C1_out_of_bounds_resolution :
    setup_cq_ring (.Owns c1_map) c1_params =
      .ok ⟨4096, 4100, 4104, 4108, 4112, .Owns c1_map, 8192⟩ ∧
    c1_map.len < c1_params.cq_off.cqes + sizeof_io_uring_cqe ∧
    ¬ (8192 < c1_map.addr + c1_map.len) :=
  ⟨rfl, by decide, by decide⟩

/-- C2: the claim says a negative setup syscall result makes initialize
fail before any mapping.  The code wraps the raw result into the ring
file descriptor unconditionally: with the syscall returning -22 (EINVAL),
initialization succeeds and the trace shows an mmap call issued on file
descriptor -22.  This exhibits the code bug. -/
theorem C2_negative_errno_not_checked :
    isOkRes (IoUring.init c2_setup c2_mm 1 zeroParams).1 = true ∧
    Event.map (-22) IORING_OFF_SQ_RING 0 4096 ∈
      (IoUring.init c2_setup c2_mm 1 zeroParams).2 :=
  ⟨rfl, by decide⟩

/-- C5: requesting RegisteredFdOnly without NoMmap makes initialize return
the InvalidArgument configuration error with an empty event trace (no setup
syscall, no mapping), for every syscall and mmap oracle. -/
theorem C5_regfdonly_without_nommap_config_error
    (setup : Nat → io_uring_params → Int × io_uring_params)
    (mm : Int → Nat → Nat → Option Nat) (entries : Nat) (p : io_uring_params)
    (h1 : p.flags &&& SETUP_FLAGS_MASK = p.flags)
    (h2 : contains p.flags IORING_SETUP_REGISTERED_FD_ONLY = true)
    (h3 : contains p.flags IORING_SETUP_NO_MMAP = false) :
    IoUring.init setup mm entries p = (.error .invalid_argument, []) := by
  simp [IoUring.init, from_bits_setup, h1, h2, h3]

/-- C5 witness: the combination at the concrete flag word 32768. -/
theorem C5_witness :
    IoUring.init c5_setup c5_mm 1 c5_params = (.error .invalid_argument, []) :=
  C5_regfdonly_without_nommap_config_error c5_setup c5_mm 1 c5_params
    (by decide) (by decide) (by decide)

/-- C10: a flags word containing any bit outside the closed setup flag set
makes initialize fail with the flag parse error and an empty event trace
(no setup syscall performed), for every syscall and mmap oracle. -/
theorem C10_unknown_flag_bits_rejected
    (setup : Nat → io_uring_params → Int × io_uring_params)
    (mm : Int → Nat → Nat → Option Nat) (entries : Nat) (p : io_uring_params)
    (h : p.flags &&& SETUP_FLAGS_MASK ≠ p.flags) :
    IoUring.init setup mm entries p = (.error .invalid_flag_bits, []) := by
  simp [IoUring.init, from_bits_setup, h]

/-- C10 witness: bit 16 is outside the defined setup flag set. -/
theorem C10_witness :
    IoUring.init c10_setup c10_mm 1 c10_params = (.error .invalid_flag_bits, []) :=
  C10_unknown_flag_bits_rejected c10_setup c10_mm 1 c10_params (by decide)

/- Further concrete inputs. -/

def c3_params : io_uring_params :=
  { zeroParams with
    sq_entries := 2
    cq_entries := 8
    sq_off := { zeroSqOff with array := 16 }
    cq_off := { zeroCqOff with cqes := 64 } }

def c3_mm : Int → Nat → Nat → Option Nat := fun _ _ _ => some 4096

def c3_st : LibQueues := ⟨some ⟨4096, 24⟩, some ⟨4096, 320⟩, ⟨4096, 128⟩⟩

def c3_tr : List Event :=
  [.map 5 IORING_OFF_SQ_RING 24 4096, .map 5 IORING_OFF_CQ_RING 320 4096,
   .map 5 IORING_OFF_SQES 128 4096]

def c4_params : io_uring_params := { zeroParams with sq_entries := 4 }

def c4_mm : Int → Nat → Nat → Option Nat := fun _ _ _ => some 4096

def c4_st : LibQueues := ⟨some ⟨4096, 16⟩, some ⟨4096, 0⟩, ⟨4096, 512⟩⟩

def c4_tr : List Event :=
  [.map 5 IORING_OFF_SQ_RING 16 4096, .map 5 IORING_OFF_CQ_RING 0 4096,
   .map 5 IORING_OFF_SQES 512 4096]

def c6_params : io_uring_params :=
  { zeroParams with
    features := 1
    sq_entries := 1
    cq_entries := 1
    sq_off := ⟨0, 4, 8, 12, 16, 20, 24, 0, 0⟩
    cq_off := ⟨0, 4, 8, 12, 16, 20, 24, 0, 0⟩ }

def c6_mm : Int → Nat → Nat → Option Nat := fun _ _ _ => some 4096

def c6_ring : IoUring :=
  ⟨⟨4096, 4100, 4104, 4108, 4112, ⟨4096, 36⟩, ⟨4096, 64⟩⟩,
   ⟨4096, 4100, 4104, 4108, 4120, .Refers ⟨4096, 36⟩, 4116⟩, 0, 5⟩

def c6_tr : List Event :=
  [.map 5 IORING_OFF_SQ_RING 36 4096, .map 5 IORING_OFF_SQES 64 4096]

def c7_params : io_uring_params := { zeroParams with sq_entries := 1 }

def c7_mm : Int → Nat → Nat → Option Nat := fun _ o _ =>
  if o = IORING_OFF_CQ_RING then none else some 4096

def c7_res : Except InitError IoUring := .error (.mmap_failed IORING_OFF_CQ_RING)

def c7_tr : List Event := [.map 5 IORING_OFF_SQ_RING 4 4096, .unmap 4096 4]

def c8_params : io_uring_params :=
  { zeroParams with
    sq_entries := 4
    cq_entries := 4
    sq_off := ⟨0, 4, 8, 12, 16, 20, 24, 0, 0⟩
    cq_off := ⟨0, 4, 8, 12, 16, 20, 24, 0, 0⟩ }

def c8_setup : Nat → io_uring_params → Int × io_uring_params :=
  fun _ _ => (5, c8_params)

def c8_mm : Int → Nat → Nat → Option Nat := fun _ o _ =>
  if o = IORING_OFF_CQ_RING then some 8192
  else if o = IORING_OFF_SQES then some 12288 else some 4096

/-- Kernel-populated shared ring memory for the C8 counterexample: the u32
cell at the resolved ring_mask address holds 5 and the cell at the resolved
ring_entries address holds 4, so mask plus one differs from entries. -/
def c8_mem : Nat → Nat := fun a => if a = 4104 then 5 else if a = 4108 then 4 else 0

def c8_resolved : MMap := ⟨4096, 64⟩

def c8_sqes : MMap := ⟨12288, 256⟩

/-- C3: in the crate-root geometry computation, the completion region byte
size is the cqes offset plus the completion entry count times the
completion entry size, where that entry size is the base size doubled
exactly when the Cqe32 setup flag is set.  Stated on the completion header
mapping actually created (the non-single-mmap path, where that size is
observable as the mapping length), under no u32 overflow. -/
theorem C3_complete_region_size (mm : Int → Nat → Nat → Option Nat) (fd : Int)
    (setup_flags : Nat) (p : io_uring_params) (st : LibQueues) (tr : List Event)
    (h_single : contains p.features IORING_FEAT_SINGLE_MMAP = false)
    (h_nof : p.cq_off.cqes + p.cq_entries * Lib.cqe_size setup_flags < U32)
    (hres : Lib.io_uring_queue_mmap mm fd setup_flags p = (.ok st, tr)) :
    st.complete_ring.map MMap.len =
      some (p.cq_off.cqes + p.cq_entries *
        (if contains setup_flags IORING_SETUP_CQE32 then sizeof_io_uring_cqe * 2
         else sizeof_io_uring_cqe)) := by
  unfold Lib.io_uring_queue_mmap at hres
  cases hfb : Lib.from_bits_features p.features with
  | error e =>
      rw [hfb] at hres
      injection hres with h1 h2
      exact Except.noConfusion h1
  | ok features =>
      rw [hfb] at hres
      have hfeq : features = p.features := by
        unfold Lib.from_bits_features at hfb
        split at hfb
        · injection hfb with h
          exact h.symm
        · exact Except.noConfusion hfb
      subst hfeq
      simp only [h_single, Bool.false_eq_true, if_false] at hres
      cases hsq : mm fd IORING_OFF_SQ_RING (Lib.send_size p setup_flags p.features) with
      | none =>
          rw [hsq] at hres
          injection hres with h1 h2
          exact Except.noConfusion h1
      | some sb =>
          rw [hsq] at hres
          cases hcq : mm fd IORING_OFF_CQ_RING (Lib.complete_size p setup_flags p.features) with
          | none =>
              rw [hcq] at hres
              injection hres with h1 h2
              exact Except.noConfusion h1
          | some cb =>
              rw [hcq] at hres
              cases hqe : mm fd IORING_OFF_SQES
                  ((Lib.sqe_size setup_flags * p.sq_entries) % U64) with
              | none =>
                  rw [hqe] at hres
                  injection hres with h1 h2
                  exact Except.noConfusion h1
              | some qb =>
                  rw [hqe] at hres
                  injection hres with h1 h2
                  injection h1 with h1
                  subst h1
                  show some (Lib.complete_size p setup_flags p.features) = _
                  have hns : ¬ (contains p.features IORING_FEAT_SINGLE_MMAP = true) := by
                    rw [h_single]
                    simp
                  unfold Lib.complete_size
                  rw [if_neg hns]
                  unfold Lib.cq_size
                  rw [Nat.mod_eq_of_lt h_nof]
                  by_cases hc : contains setup_flags IORING_SETUP_CQE32 = true
                  · simp [Lib.cqe_size, hc, sizeof_io_uring_cqe]
                  · simp [Lib.cqe_size, hc, sizeof_io_uring_cqe]

/-- C3 witness: scenario B of the spec, Cqe32 set, Sqe128 unset, eight
completion entries, cqes offset 64: the completion mapping length is
64 + 8 * 32 = 320. -/
theorem C3_witness :
    c3_st.complete_ring.map MMap.len =
      some (c3_params.cq_off.cqes + c3_params.cq_entries *
        (if contains 2048 IORING_SETUP_CQE32 then sizeof_io_uring_cqe * 2
         else sizeof_io_uring_cqe)) :=
  C3_complete_region_size c3_mm 5 2048 c3_params c3_st c3_tr
    (by decide) (by decide) rfl

/-- C4: in the crate-root geometry computation, the submission entry array
mapping has byte size equal to the submission entry count times the base
submission entry size plus 64 when Sqe128 is set, and it is created by a
dedicated mmap call at the entry-array magic offset (its own mapping,
with no hypothesis on the single-mmap feature), under no usize overflow. -/
theorem C4_sqes_separate_mapping (mm : Int → Nat → Nat → Option Nat) (fd : Int)
    (setup_flags : Nat) (p : io_uring_params) (st : LibQueues) (tr : List Event)
    (h_nof : Lib.sqe_size setup_flags * p.sq_entries < U64)
    (hres : Lib.io_uring_queue_mmap mm fd setup_flags p = (.ok st, tr)) :
    st.qes.len = p.sq_entries *
      (sizeof_io_uring_sqe +
        (if contains setup_flags IORING_SETUP_SQE128 then 64 else 0)) ∧
    Event.map fd IORING_OFF_SQES st.qes.len st.qes.addr ∈ tr := by
  unfold Lib.io_uring_queue_mmap at hres
  cases hfb : Lib.from_bits_features p.features with
  | error e =>
      rw [hfb] at hres
      injection hres with h1 h2
      exact Except.noConfusion h1
  | ok features =>
      rw [hfb] at hres
      dsimp only at hres
      have hlen : ((Lib.sqe_size setup_flags * p.sq_entries) % U64) =
          p.sq_entries * (sizeof_io_uring_sqe +
            (if contains setup_flags IORING_SETUP_SQE128 then 64 else 0)) := by
        rw [Nat.mod_eq_of_lt h_nof]
        by_cases hc : contains setup_flags IORING_SETUP_SQE128 = true
        · simp [Lib.sqe_size, hc, sizeof_io_uring_sqe]
          omega
        · simp [Lib.sqe_size, hc, sizeof_io_uring_sqe]
          omega
      cases hsq : mm fd IORING_OFF_SQ_RING (Lib.send_size p setup_flags features) with
      | none =>
          rw [hsq] at hres
          injection hres with h1 h2
          exact Except.noConfusion h1
      | some sb =>
          rw [hsq] at hres
          dsimp only at hres
          by_cases hsm : contains features IORING_FEAT_SINGLE_MMAP = true
          · rw [if_pos hsm] at hres
            cases hqe : mm fd IORING_OFF_SQES
                ((Lib.sqe_size setup_flags * p.sq_entries) % U64) with
            | none =>
                rw [hqe] at hres
                injection hres with h1 h2
                exact Except.noConfusion h1
            | some qb =>
                rw [hqe] at hres
                injection hres with h1 h2
                injection h1 with h1
                subst h1
                subst h2
                refine ⟨hlen, ?_⟩
                show Event.map fd IORING_OFF_SQES
                  ((Lib.sqe_size setup_flags * p.sq_entries) % U64) qb ∈ _
                simp
          · rw [if_neg hsm] at hres
            cases hcq : mm fd IORING_OFF_CQ_RING
                (Lib.complete_size p setup_flags features) with
            | none =>
                rw [hcq] at hres
                injection hres with h1 h2
                exact Except.noConfusion h1
            | some cb =>
                rw [hcq] at hres
                cases hqe : mm fd IORING_OFF_SQES
                    ((Lib.sqe_size setup_flags * p.sq_entries) % U64) with
                | none =>
                    rw [hqe] at hres
                    injection hres with h1 h2
                    exact Except.noConfusion h1
                | some qb =>
                    rw [hqe] at hres
                    injection hres with h1 h2
                    injection h1 with h1
                    subst h1
                    subst h2
                    refine ⟨hlen, ?_⟩
                    show Event.map fd IORING_OFF_SQES
                      ((Lib.sqe_size setup_flags * p.sq_entries) % U64) qb ∈ _
                    simp

/-- C4 witness: Sqe128 set with four submission entries: the entry array
mapping has length 4 * 128 = 512 and appears as its own mmap call. -/
theorem C4_witness :
    c4_st.qes.len = c4_params.sq_entries *
      (sizeof_io_uring_sqe +
        (if contains 1024 IORING_SETUP_SQE128 then 64 else 0)) ∧
    Event.map 5 IORING_OFF_SQES c4_st.qes.len c4_st.qes.addr ∈ c4_tr :=
  C4_sqes_separate_mapping c4_mm 5 1024 c4_params c4_st c4_tr (by decide) rfl

/-- C6: whenever the kernel reports the single-mmap feature, a successful
io_uring_queue_mmap maps the shared header region with the larger of the
two computed header sizes (the submission ring mapping length is that
maximum), the completion descriptor holds a non-owning Refers to that very
mapping, and the trace contains exactly one header mapping. -/
theorem C6_single_mmap_shared_header (mm : Int → Nat → Nat → Option Nat)
    (fd : Int) (p : io_uring_params) (r : IoUring) (tr : List Event)
    (hs : 0 < p.features &&& IORING_FEAT_SINGLE_MMAP)
    (hres : io_uring_queue_mmap mm fd p = (.ok r, tr)) :
    r.send_queue.ring.len = max (sq_ring_size p) (cq_ring_size p) ∧
    r.complete_queue.ring = .Refers r.send_queue.ring ∧
    headerMapCount tr = 1 := by
  unfold io_uring_queue_mmap at hres
  cases hsq : mm fd IORING_OFF_SQ_RING (send_ring_size p) with
  | none =>
      rw [hsq] at hres
      injection hres with h1 h2
      exact Except.noConfusion h1
  | some sb =>
      rw [hsq] at hres
      dsimp only at hres
      rw [if_pos hs] at hres
      unfold queue_mmap_rest at hres
      cases hqe : mm fd IORING_OFF_SQES (sqes_size p) with
      | none =>
          rw [hqe] at hres
          injection hres with h1 h2
          exact Except.noConfusion h1
      | some qb =>
          rw [hqe] at hres
          dsimp only at hres
          cases hcq : setup_cq_ring (.Refers ⟨sb, send_ring_size p⟩) p with
          | error e =>
              rw [hcq] at hres
              injection hres with h1 h2
              exact Except.noConfusion h1
          | ok cq =>
              rw [hcq] at hres
              dsimp only at hres
              cases hsr : setup_send_ring ⟨sb, send_ring_size p⟩ p
                  ⟨qb, sqes_size p⟩ with
              | error e =>
                  rw [hsr] at hres
                  injection hres with h1 h2
                  exact Except.noConfusion h1
              | ok sq =>
                  rw [hsr] at hres
                  injection hres with h1 h2
                  injection h1 with h1
                  subst h1
                  subst h2
                  obtain ⟨hring, hsqes⟩ := setup_send_ring_ring _ _ _ _ hsr
                  have hcqr := setup_cq_ring_ring _ _ _ hcq
                  refine ⟨?_, ?_, ?_⟩
                  · show sq.ring.len = _
                    rw [hring]
                    show send_ring_size p = _
                    unfold send_ring_size
                    rw [if_pos hs, if_gt_else_eq_max]
                  · show cq.ring = _
                    rw [hcqr, hring]
                  · rfl

/-- C6 witness: single-mmap feature reported, one entry each side, the
submission size 28 and completion size 36 collapse to one 36-byte header
mapping shared by reference. -/
theorem C6_witness :
    c6_ring.send_queue.ring.len = max (sq_ring_size c6_params) (cq_ring_size c6_params) ∧
    c6_ring.complete_queue.ring = .Refers c6_ring.send_queue.ring ∧
    headerMapCount c6_tr = 1 :=
  C6_single_mmap_shared_header c6_mm 5 c6_params c6_ring c6_tr (by decide) rfl

/-- C7: if initialization fails (under in-range offset tables and mmap
bases, so exactly the mapping steps can fail), every mapping already
acquired is released in reverse order of acquisition and no handle is
returned; on success nothing is unmapped. -/
theorem C7_rollback_reverse_order (mm : Int → Nat → Nat → Option Nat)
    (fd : Int) (p : io_uring_params) (res : Except InitError IoUring)
    (tr : List Event) (hp : ParamsWF p)
    (hmm : ∀ o l b, mm fd o l = some b → 0 < b ∧ b < U32)
    (hres : io_uring_queue_mmap mm fd p = (res, tr)) :
    (isOkRes res = false → unmapSeq tr = (mapSeq tr).reverse) ∧
    (isOkRes res = true → unmapSeq tr = []) := by
  unfold io_uring_queue_mmap at hres
  cases hsq : mm fd IORING_OFF_SQ_RING (send_ring_size p) with
  | none =>
      rw [hsq] at hres
      injection hres with h1 h2
      subst h1
      subst h2
      exact ⟨fun _ => rfl, fun h => by simp [isOkRes] at h⟩
  | some sb =>
      rw [hsq] at hres
      dsimp only at hres
      obtain ⟨hsb0, hsbu⟩ := hmm _ _ _ hsq
      by_cases hs : 0 < p.features &&& IORING_FEAT_SINGLE_MMAP
      · rw [if_pos hs] at hres
        unfold queue_mmap_rest at hres
        cases hqe : mm fd IORING_OFF_SQES (sqes_size p) with
        | none =>
            rw [hqe] at hres
            injection hres with h1 h2
            subst h1
            subst h2
            exact ⟨fun _ => rfl, fun h => by simp [isOkRes] at h⟩
        | some qb =>
            rw [hqe] at hres
            dsimp only at hres
            rw [setup_cq_ring_eq (.Refers ⟨sb, send_ring_size p⟩) p hsb0 hsbu hp]
              at hres
            dsimp only at hres
            rw [setup_send_ring_eq ⟨sb, send_ring_size p⟩ p ⟨qb, sqes_size p⟩
              hsb0 hsbu hp] at hres
            injection hres with h1 h2
            subst h1
            subst h2
            exact ⟨fun h => by simp [isOkRes] at h, fun _ => rfl⟩
      · rw [if_neg hs] at hres
        cases hcq : mm fd IORING_OFF_CQ_RING (complete_ring_size p) with
        | none =>
            rw [hcq] at hres
            injection hres with h1 h2
            subst h1
            subst h2
            exact ⟨fun _ => rfl, fun h => by simp [isOkRes] at h⟩
        | some cb =>
            rw [hcq] at hres
            dsimp only at hres
            obtain ⟨hcb0, hcbu⟩ := hmm _ _ _ hcq
            unfold queue_mmap_rest at hres
            cases hqe : mm fd IORING_OFF_SQES (sqes_size p) with
            | none =>
                rw [hqe] at hres
                injection hres with h1 h2
                subst h1
                subst h2
                exact ⟨fun _ => rfl, fun h => by simp [isOkRes] at h⟩
            | some qb =>
                rw [hqe] at hres
                dsimp only at hres
                rw [setup_cq_ring_eq (.Owns ⟨cb, complete_ring_size p⟩) p
                  hcb0 hcbu hp] at hres
                dsimp only at hres
                rw [setup_send_ring_eq ⟨sb, send_ring_size p⟩ p
                  ⟨qb, sqes_size p⟩ hsb0 hsbu hp] at hres
                injection hres with h1 h2
                subst h1
                subst h2
                exact ⟨fun h => by simp [isOkRes] at h, fun _ => rfl⟩

/-- C7 witness: the completion header mapping fails; the already-acquired
submission header mapping is released, the reverse of the singleton
acquisition list, and no handle is returned. -/
theorem C7_witness :
    (isOkRes c7_res = false → unmapSeq c7_tr = (mapSeq c7_tr).reverse) ∧
    (isOkRes c7_res = true → unmapSeq c7_tr = []) :=
  C7_rollback_reverse_order c7_mm 5 c7_params c7_res c7_tr
    (by unfold ParamsWF; decide)
    (by
      intro o l b h
      unfold c7_mm at h
      split at h
      · exact Option.noConfusion h
      · injection h with h
        subst h
        exact ⟨by decide, by decide⟩)
    rfl

/-- C8 counterexample: a successful initialization run against the
kernel-populated shared memory c8_mem in which the value at the resolved
ring_mask accessor plus one differs from the value at the resolved
ring_entries accessor; initialization nevertheless succeeds, so the layer
performs no defensive verification of the invariant. -/
theorem C8_no_defensive_check :
    (resultOk (IoUring.init c8_setup c8_mm 4 c8_params).1).map
      (fun r => c8_mem r.send_queue.mask + 1 == c8_mem r.send_queue.entries) =
      some false := by decide

/-- C8 amended: submission offset resolution always succeeds on in-range
tables and returns plain base-plus-offset accessors for ring_mask and
ring_entries; no value is read and no mask-entries relation is checked, so
the invariant holds only as far as the kernel-written values satisfy it. -/
theorem C8_resolution_is_unverified (m : MMap) (p : io_uring_params)
    (sqes : MMap) (h1 : 0 < m.addr) (h2 : m.addr < U32) (hp : ParamsWF p) :
    ∃ q, setup_send_ring m p sqes = .ok q ∧
      q.mask = m.addr + p.sq_off.ring_mask ∧
      q.entries = m.addr + p.sq_off.ring_entries :=
  ⟨_, setup_send_ring_eq m p sqes h1 h2 hp, rfl, rfl⟩

/-- C8 amended witness: the resolution at the concrete header mapping of
the counterexample run. -/
theorem C8_amended_witness :
    ∃ q, setup_send_ring c8_resolved c8_params c8_sqes = .ok q ∧
      q.mask = c8_resolved.addr + c8_params.sq_off.ring_mask ∧
      q.entries = c8_resolved.addr + c8_params.sq_off.ring_entries :=
  C8_resolution_is_unverified c8_resolved c8_params c8_sqes
    (by decide) (by decide) (by unfold ParamsWF; decide)
